import Mathlib

/-!
# Verification of the Thursday reminder subsystem

A shallow embedding, in Lean 4, of the reminder subsystem of the
`thursday-web` server (`src/thursday-web/reminder.py`,
`src/thursday-web/main.py`, `src/thursday-web/notifier.py`), together
with theorems settling the behavioural claims about it.

Modelling conventions:

* Unix timestamps are natural numbers of seconds.  Python's naive local
  `datetime` arithmetic is modelled on a fixed-offset clock: the calendar
  day of a timestamp `t` is `t / 86400`, and
  `datetime.replace(hour=h, minute=m, second=0, microsecond=0)` becomes
  `t / 86400 * 86400 + h * 3600 + m * 60` (valid only for `h ≤ 23` and
  `m ≤ 59`; outside that range Python's `replace` raises `ValueError`,
  modelled by the `ParseResult.valueError` outcome).
* Strings are processed as `List Char`.  Python's `str.strip`,
  `str.lower` and the `\s`/`\d` regex classes are modelled at ASCII
  level, which covers every character the reminder grammar can consume.
* The regular expressions of `reminder.py` are embedded as recursive
  descent matchers that reproduce the Python `re` backtracking order
  (ordered alternation, greedy `\s*`/`\d+`, lazy `(.+?)`) for the
  patterns at hand; each matcher carries a comment naming the pattern it
  embeds.
* The SQLite-backed `ReminderStore` is modelled as an in-memory list of
  rows plus the autoincrement counter.
-/

namespace Thursday

/-! ## Character-level primitives (Python `str` / `re` classes) -/

/-- Python's `\d` class (ASCII digits). -/
def isDig (c : Char) : Bool := 48 ≤ c.toNat && c.toNat ≤ 57

/-- Python's `\s` class, restricted to ASCII (space, tab, newline,
carriage return, vertical tab, form feed). -/
def isPySpace (c : Char) : Bool :=
  c = ' ' || c = '\t' || c = '\n' || c = '\x0d' || c = '\x0b' || c = '\x0c'

/-- Python `str.strip()` (no argument): drop whitespace on both ends. -/
def pyStrip (cs : List Char) : List Char :=
  ((cs.dropWhile isPySpace).reverse.dropWhile isPySpace).reverse

/-- Python `str.lower()` on one ASCII character. -/
def pyLowerChar (c : Char) : Char :=
  if 65 ≤ c.toNat && c.toNat ≤ 90 then Char.ofNat (c.toNat + 32) else c

/-- Python `str.lower()` over a string. -/
def pyLower (cs : List Char) : List Char := cs.map pyLowerChar

/-- Numeric value of one ASCII digit character. -/
def digitVal (c : Char) : Nat := c.toNat - 48

/-- Python `int()` on a non-empty digit string. -/
def digitsVal (cs : List Char) : Nat := cs.foldl (fun a c => a * 10 + digitVal c) 0

/-- Match a literal string at the head of the input, returning the rest. -/
def dropLit : List Char → List Char → Option (List Char)
  | [], cs => some cs
  | _ :: _, [] => none
  | l :: ls, c :: cs => if c = l then dropLit ls cs else none

/-! ## Time-expression parser (`parse_time_expression`, reminder.py 160-239)

The Python function returns a `float` timestamp or `None`; additionally,
`datetime.replace` raises `ValueError` when a captured hour/minute is out
of range, and that exception propagates out of `parse_time_expression`
(there is no `try` around it).  The three outcomes are modelled by
`ParseResult`. -/

inductive ParseResult where
  /-- A timestamp was returned. -/
  | ok (t : Nat)
  /-- The function returned `None` (no grammar family matched). -/
  | failure
  /-- `datetime.replace` raised `ValueError` (hour not in 0..23 or
  minute not in 0..59), which propagates to the caller. -/
  | valueError
deriving DecidableEq, Repr

/-- One alternative of a unit alternation: the literal, and whether the
regex allows an optional trailing `s` (greedy `s?`). -/
abbrev UnitAlt := List Char × Bool

/-- `hours?|hrs?|h` -/
def hourUnits : List UnitAlt := [(['h','o','u','r'], true), (['h','r'], true), (['h'], false)]

/-- `minutes?|mins?|m` -/
def minUnits : List UnitAlt := [(['m','i','n','u','t','e'], true), (['m','i','n'], true), (['m'], false)]

/-- `seconds?|secs?|s` -/
def secUnits : List UnitAlt := [(['s','e','c','o','n','d'], true), (['s','e','c'], true), (['s'], false)]

/-- Ordered alternation over unit spellings, each with its optional
greedy trailing `s`.  First alternative that matches wins (no later
element of the enclosing pattern can fail, so the Python engine never
backtracks into the alternation). -/
def unitAlt : List UnitAlt → List Char → Option (List Char)
  | [], _ => none
  | (lit, optS) :: alts, cs =>
    match dropLit lit cs with
    | some rest =>
      if optS then
        match rest with
        | 's' :: rest' => some rest'
        | _ => some rest
      else some rest
    | none => unitAlt alts cs

/-- One optional group `(?:(\d+)\s*UNIT\s*(?:and\s*)?)?` of the compound
relative regex (reminder.py 178-184).  Returns the captured value and
the rest of the input on success, or `(none, cs)` when the group does
not match (the group is optional, so the position is unchanged).  The
final (seconds) group has no `\s*(?:and\s*)?` tail, selected by
`tail := false`. -/
def unitGroup (alts : List UnitAlt) (tail : Bool) (cs : List Char) :
    Option Nat × List Char :=
  if (cs.takeWhile isDig).isEmpty then (none, cs)
  else
    match unitAlt alts ((cs.dropWhile isDig).dropWhile isPySpace) with
    | none => (none, cs)
    | some cs2 =>
      if tail then
        match dropLit ['a','n','d'] (cs2.dropWhile isPySpace) with
        | some cs4 => (some (digitsVal (cs.takeWhile isDig)), cs4.dropWhile isPySpace)
        | none => (some (digitsVal (cs.takeWhile isDig)), cs2.dropWhile isPySpace)
      else (some (digitsVal (cs.takeWhile isDig)), cs2)

/-- The compound-relative regex
`in\s+(?:(\d+)\s*(?:hours?|hrs?|h)\s*(?:and\s*)?)?(?:(\d+)\s*(?:minutes?|mins?|m)\s*(?:and\s*)?)?(?:(\d+)\s*(?:seconds?|secs?|s))?`
applied with `re.match`.  Returns the three captured groups when the
regex matches (it can match with all groups absent), `none` when even
the leading `in\s+` fails. -/
def matchCompound (cs : List Char) : Option (Option Nat × Option Nat × Option Nat) :=
  match dropLit ['i','n'] cs with
  | none => none
  | some cs0 =>
    if (cs0.takeWhile isPySpace).isEmpty then none
    else
      some ((unitGroup hourUnits true (cs0.dropWhile isPySpace)).1,
        (unitGroup minUnits true
          (unitGroup hourUnits true (cs0.dropWhile isPySpace)).2).1,
        (unitGroup secUnits false
          (unitGroup minUnits true
            (unitGroup hourUnits true (cs0.dropWhile isPySpace)).2).2).1)

/-- The value of the compound-relative family (reminder.py 185-191): the
delta in seconds if the regex matched, captured at least one group, and
the captured values are not all zero; `none` otherwise (the code falls
through to the next family). -/
def compoundResult (cs : List Char) : Option Nat :=
  match matchCompound cs with
  | some (h, m, s) =>
    let hv := h.getD 0
    let mv := m.getD 0
    let sv := s.getD 0
    if (h.isSome || m.isSome || s.isSome) && decide (0 < hv + mv + sv) then
      some (hv * 3600 + mv * 60 + sv)
    else none
  | none => none

/-- `am` / `pm` capture of the clock-time regexes. -/
inductive AmPm where
  | am
  | pm
deriving DecidableEq, Repr

/-- The `\s*(am|pm)?` tail of a clock-time regex, with the end anchor
`$` when `anchored` (the bare-time regex, reminder.py 226).  `\s*` is
greedy; the `am`/`pm` literal starts with a non-space character, so the
greedy choice is the only one that can reach the literal, and when the
anchor rejects, skipping the optional group cannot help (a non-empty
rest remains).  Returns the captured group, or `none` if this attempt
fails (anchored case only). -/
def tailAmPm (anchored : Bool) (cs : List Char) : Option (Option AmPm) :=
  match cs.dropWhile isPySpace with
  | 'a' :: 'm' :: rest => if !anchored || rest.isEmpty then some (some .am) else none
  | 'p' :: 'm' :: rest => if !anchored || rest.isEmpty then some (some .pm) else none
  | [] => some none
  | _ => if anchored then none else some none

/-- The optional minutes group `(?:[: ](\d{2}))?`: a `:` or space
followed by exactly two digits. -/
def withMinute (cs : List Char) : Option (Nat × List Char) :=
  match cs with
  | c :: d1 :: d2 :: rest =>
    if (c = ':' || c = ' ') && isDig d1 && isDig d2 then
      some (digitVal d1 * 10 + digitVal d2, rest)
    else none
  | _ => none

/-- One attempt of `(\d{1,2})(?:[: ](\d{2}))?\s*(am|pm)?` with the hour
value fixed: the greedy optional minutes group is tried first, without
it second (Python backtracking order). -/
def attemptHour (anchored : Bool) (h : Nat) (cs : List Char) :
    Option (Nat × Nat × Option AmPm) :=
  (match withMinute cs with
   | some (mi, cs2) => (tailAmPm anchored cs2).map fun ap => (h, mi, ap)
   | none => none).orElse fun _ =>
    (tailAmPm anchored cs).map fun ap => (h, 0, ap)

/-- The clock-time core `(\d{1,2})(?:[: ](\d{2}))?\s*(am|pm)?` (with `$`
when `anchored`).  `\d{1,2}` is greedy: the two-digit reading of the
hour is attempted before the one-digit reading.  Returns the captured
`(hour, minute, am/pm)` of the first successful attempt, minutes
defaulting to 0. -/
def clockCore (anchored : Bool) (cs : List Char) : Option (Nat × Nat × Option AmPm) :=
  match cs with
  | d1 :: rest1 =>
    if isDig d1 then
      (match rest1 with
       | d2 :: rest2 =>
         if isDig d2 then attemptHour anchored (digitVal d1 * 10 + digitVal d2) rest2
         else none
       | [] => none).orElse fun _ => attemptHour anchored (digitVal d1) rest1
    else none
  | [] => none

/-- The prefix `WORD\s+(?:at\s+)?` of the `tomorrow`/`today` regexes
(reminder.py 194-196, 210-212).  The optional `at\s+` group is
committed when it matches: if the following `\d{1,2}` then fails, the
backtracked attempt without the group starts at a letter and fails as
well. -/
def dayWord (word : List Char) (cs : List Char) : Option (List Char) :=
  match dropLit word cs with
  | none => none
  | some cs0 =>
    if (cs0.takeWhile isPySpace).isEmpty then none
    else
      let cs1 := cs0.dropWhile isPySpace
      match dropLit ['a','t'] cs1 with
      | some cs2 =>
        if (cs2.takeWhile isPySpace).isEmpty then some cs1
        else some (cs2.dropWhile isPySpace)
      | none => some cs1

/-- The full `tomorrow`/`today` clock regex: day word, then clock core,
unanchored at the end. -/
def dayClockMatch (word : List Char) (cs : List Char) : Option (Nat × Nat × Option AmPm) :=
  match dayWord word cs with
  | some cs1 => clockCore false cs1
  | none => none

/-- 12-hour disambiguation (reminder.py 200-203 etc.): `pm` and hour ≠
12 adds 12; `am` and hour 12 maps to 0. -/
def adjustHour (h : Nat) (ap : Option AmPm) : Nat :=
  match ap with
  | some .pm => if h ≠ 12 then h + 12 else h
  | some .am => if h = 12 then 0 else h
  | none => h

/-- `datetime.replace(hour=h, minute=mi, second=0, microsecond=0)` on
the fixed-offset clock: same calendar day as `t`, at `h:mi:00`.  Only
meaningful for `h ≤ 23 ∧ mi ≤ 59`; Python raises `ValueError`
otherwise. -/
def replaceTime (t h mi : Nat) : Nat := t / 86400 * 86400 + h * 3600 + mi * 60

/-- `expr.strip().lower()` (reminder.py 174). -/
def normExpr (expr : String) : List Char := pyLower (pyStrip expr.data)

/-- `parse_time_expression` (reminder.py 160-239): the four grammar
families in order — compound relative, `tomorrow`, `today`, bare clock
time — else `None`. -/
def parse_time_expression (expr : String) (now : Nat) : ParseResult :=
  let cs := normExpr expr
  match compoundResult cs with
  | some delta => .ok (now + delta)
  | none =>
  match dayClockMatch ['t','o','m','o','r','r','o','w'] cs with
  | some (h, mi, ap) =>
    let h' := adjustHour h ap
    if h' ≤ 23 ∧ mi ≤ 59 then .ok (replaceTime (now + 86400) h' mi) else .valueError
  | none =>
  match dayClockMatch ['t','o','d','a','y'] cs with
  | some (h, mi, ap) =>
    let h' := adjustHour h ap
    if h' ≤ 23 ∧ mi ≤ 59 then
      let target := replaceTime now h' mi
      .ok (if target ≤ now then target + 86400 else target)
    else .valueError
  | none =>
  match clockCore true cs with
  | some (h, mi, ap) =>
    let h' := adjustHour h ap
    if h' ≤ 23 ∧ mi ≤ 59 then
      let target := replaceTime now h' mi
      .ok (if target ≤ now then target + 86400 else target)
    else .valueError
  | none => .failure

/-! ## Reminder tag parser (reminder.py 246-264)

`REMIND_TAG_RE = re.compile(r'\[REMIND:\s*(.+?)\s*\|\s*(.+?)\s*\]', re.IGNORECASE)`

The pattern is embedded as an explicit backtracking matcher reproducing
the Python engine's order of exploration: greedy `\s*` tries the longest
prefix of whitespace first, lazy `(.+?)` tries the shortest non-empty
run of non-newline characters first. -/

/-- Greedy `\s*` with backtracking: the continuation is tried on the
suffixes obtained by consuming the longest whitespace prefix first, down
to consuming nothing. -/
def spacesGreedy {α : Type} (cs : List Char) (k : List Char → Option α) : Option α :=
  match cs with
  | [] => k []
  | c :: rest =>
    if isPySpace c then
      match spacesGreedy rest k with
      | some r => some r
      | none => k (c :: rest)
    else k (c :: rest)

/-- Lazy `(.+?)`: at least one non-newline character, extended one
character at a time; the continuation receives the captured group and
the rest, shortest capture first. -/
def lazyPlus {α : Type} : List Char → List Char → (List Char → List Char → Option α) → Option α
  | [], _, _ => none
  | c :: rest, taken, k =>
    if c = '\n' then none
    else
      match k (taken ++ [c]) rest with
      | some r => some r
      | none => lazyPlus rest (taken ++ [c]) k

/-- The tail `\s*(.+?)\s*\|\s*(.+?)\s*\]` of the tag regex, matched
right after the literal `[REMIND:`.  Returns the two captured groups
(raw, before `.strip()`) and the rest of the input after the `]`. -/
def matchTagTail (cs : List Char) : Option (List Char × List Char × List Char) :=
  spacesGreedy cs fun cs1 =>
    lazyPlus cs1 [] fun g1 cs2 =>
      spacesGreedy cs2 fun cs3 =>
        match cs3 with
        | '|' :: cs4 =>
          spacesGreedy cs4 fun cs5 =>
            lazyPlus cs5 [] fun g2 cs6 =>
              spacesGreedy cs6 fun cs7 =>
                match cs7 with
                | ']' :: cs8 => some (g1, g2, cs8)
                | _ => none
        | _ => none

/-- Attempt the whole tag regex at the current position: the literal
`[REMIND:` case-insensitively, then the tail. -/
def tryTagAt (cs : List Char) : Option (List Char × List Char × List Char) :=
  match dropLit ['[','r','e','m','i','n','d',':'] (pyLower cs) with
  | none => none
  | some _ => matchTagTail (cs.drop 8)

/-- `REMIND_TAG_RE.finditer`: scan left to right, non-overlapping; on a
match resume after it, otherwise advance one character.  Returns, per
match, the full matched text (`group(0)`) and the two raw groups.  The
fuel argument (instantiated with the input length) bounds the scan. -/
def scanTags : Nat → List Char → List (List Char × List Char × List Char)
  | 0, _ => []
  | _, [] => []
  | fuel + 1, c :: rest =>
    match tryTagAt (c :: rest) with
    | some (g1, g2, after) =>
      ((c :: rest).take ((c :: rest).length - after.length), g1, g2) :: scanTags fuel after
    | none => scanTags fuel rest

/-- `extract_reminder_tags` (reminder.py 251-259): list of
`(m.group(0), m.group(1).strip(), m.group(2).strip())`. -/
def extract_reminder_tags (text : String) : List (String × String × String) :=
  (scanTags text.data.length text.data).map fun t =>
    (String.mk t.1, String.mk (pyStrip t.2.1), String.mk (pyStrip t.2.2))

/-- `REMIND_TAG_RE.sub('', text)`: the input with every match deleted. -/
def subTags : Nat → List Char → List Char
  | 0, cs => cs
  | _, [] => []
  | fuel + 1, c :: rest =>
    match tryTagAt (c :: rest) with
    | some (_, _, after) => subTags fuel after
    | none => c :: subTags fuel rest

/-- `strip_reminder_tags` (reminder.py 262-264):
`REMIND_TAG_RE.sub('', text).strip()`. -/
def strip_reminder_tags (text : String) : String :=
  String.mk (pyStrip (subTags text.data.length text.data))

/-! ## Reminder store (reminder.py 37-153)

The SQLite table is modelled as the list of its rows in insertion order
plus the `AUTOINCREMENT` counter.  `trigger_at`/`created_at` are REAL in
the schema; the claims only compare them, so they are modelled as
natural numbers of seconds. -/

structure Reminder where
  id : Nat
  message : String
  trigger_at : Nat
  created_at : Nat
  fired : Bool
  conversation_id : Option String
deriving DecidableEq, Repr

structure ReminderStore where
  reminders : List Reminder
  nextId : Nat
deriving DecidableEq, Repr

/-- `add_reminder` (reminder.py 74-91): INSERT with `fired = 0` and a
fresh autoincrement id; returns the created record. -/
def ReminderStore.add_reminder (s : ReminderStore) (message : String)
    (trigger_at : Nat) (now : Nat) (conversation_id : Option String) :
    Reminder × ReminderStore :=
  let r : Reminder :=
    { id := s.nextId, message := message, trigger_at := trigger_at,
      created_at := now, fired := false, conversation_id := conversation_id }
  (r, { reminders := s.reminders ++ [r], nextId := s.nextId + 1 })

/-- `get_due_reminders` (reminder.py 93-104):
`SELECT ... WHERE trigger_at <= ? AND fired = 0`. -/
def ReminderStore.get_due_reminders (s : ReminderStore) (now : Nat) : List Reminder :=
  s.reminders.filter fun r => decide (r.trigger_at ≤ now ∧ r.fired = false)

/-- `mark_fired` (reminder.py 106-110):
`UPDATE reminders SET fired = 1 WHERE id = ?`. -/
def ReminderStore.mark_fired (s : ReminderStore) (reminder_id : Nat) : ReminderStore :=
  { s with
    reminders := s.reminders.map fun r =>
      if r.id = reminder_id then { r with fired := true } else r }

/-- Descending comparison on trigger times (`ORDER BY trigger_at DESC`). -/
def remGE (a b : Reminder) : Prop := b.trigger_at ≤ a.trigger_at

/-- Ascending comparison on trigger times (`ORDER BY trigger_at ASC`). -/
def remLE (a b : Reminder) : Prop := a.trigger_at ≤ b.trigger_at

instance : DecidableRel remGE := fun a b => Nat.decLe b.trigger_at a.trigger_at

instance : DecidableRel remLE := fun a b => Nat.decLe a.trigger_at b.trigger_at

instance : IsTotal Reminder remGE := ⟨fun a b => Nat.le_total b.trigger_at a.trigger_at⟩

instance : IsTrans Reminder remGE := ⟨fun _ _ _ h1 h2 => Nat.le_trans h2 h1⟩

instance : IsTotal Reminder remLE := ⟨fun a b => Nat.le_total a.trigger_at b.trigger_at⟩

instance : IsTrans Reminder remLE := ⟨fun _ _ _ h1 h2 => Nat.le_trans h1 h2⟩

/-- `list_active` (reminder.py 112-126):
`SELECT ... WHERE fired = 0 ORDER BY trigger_at ASC` (the source
projects the rows to dicts; the model returns the rows). -/
def ReminderStore.list_active (s : ReminderStore) : List Reminder :=
  List.insertionSort remLE (s.reminders.filter fun r => r.fired = false)

/-- `list_all` (reminder.py 128-143):
`SELECT ... ORDER BY trigger_at DESC LIMIT 50` — no `limit` parameter
exists in the source; the limit is the constant 50. -/
def ReminderStore.list_all (s : ReminderStore) : List Reminder :=
  (List.insertionSort remGE s.reminders).take 50

/-- `delete_reminder` (reminder.py 145-150): DELETE by id, returning
`rowcount > 0`. -/
def ReminderStore.delete_reminder (s : ReminderStore) (reminder_id : Nat) :
    ReminderStore × Bool :=
  ({ s with reminders := s.reminders.filter fun r => r.id ≠ reminder_id },
   s.reminders.any fun r => r.id = reminder_id)

/-- Store well-formedness: every row's id is below the autoincrement
counter, and ids are unique (`id INTEGER PRIMARY KEY AUTOINCREMENT`). -/
def ReminderStore.WF (s : ReminderStore) : Prop :=
  (∀ r ∈ s.reminders, r.id < s.nextId) ∧ (s.reminders.map Reminder.id).Nodup

/-- The store operations, as one type, for invariant statements.  Query
operations (`get_due`, `list_active`, `list_all`) read but do not write. -/
inductive StoreOp where
  | add (message : String) (trigger_at : Nat) (now : Nat) (conversation_id : Option String)
  | markFired (reminder_id : Nat)
  | delete (reminder_id : Nat)
  | getDue (now : Nat)
  | listActive
  | listAll
deriving Repr

/-- The store state after one operation. -/
def applyOp (s : ReminderStore) : StoreOp → ReminderStore
  | .add message trigger_at now conversation_id =>
    (s.add_reminder message trigger_at now conversation_id).2
  | .markFired reminder_id => s.mark_fired reminder_id
  | .delete reminder_id => (s.delete_reminder reminder_id).1
  | .getDue _ => s
  | .listActive => s
  | .listAll => s

/-- Per-row consequence of the store invariant: between two snapshots of
the same row, every field except `fired` is unchanged, and `fired` only
moves from `false` to `true`. -/
def reminderConsistent (old new : Reminder) : Prop :=
  new.message = old.message ∧ new.trigger_at = old.trigger_at ∧
  new.created_at = old.created_at ∧ new.conversation_id = old.conversation_id ∧
  (old.fired = true → new.fired = true)

/-- Store-level invariant between two states: any row present in both
(matched by id) is consistent. -/
def storeEvolves (s s' : ReminderStore) : Prop :=
  ∀ r ∈ s.reminders, ∀ r' ∈ s'.reminders, r.id = r'.id → reminderConsistent r r'

/-! ## Scheduler poll cycle (main.py 86-99)

One iteration of `_reminder_check_loop`: read the due reminders once,
then for each one call `send_reminder_fire_notification(r.message)` —
whose boolean result is discarded — and then `mark_fired(r.id)`.
`deliver` models the notification channel's success or failure per
reminder id; the trace of calls is recorded as a list of events. -/

inductive SchedEvent where
  /-- `send_reminder_fire_notification` was called for this reminder and
  reported `delivered`. -/
  | notifyFire (id : Nat) (delivered : Bool)
  /-- `mark_fired` was called for this reminder id. -/
  | markFired (id : Nat)
deriving DecidableEq, Repr

/-- One poll cycle of `_reminder_check_loop` (main.py 91-95): the event
trace and the resulting store. -/
def ReminderStore.pollCycle (s : ReminderStore) (now : Nat) (deliver : Nat → Bool) :
    List SchedEvent × ReminderStore :=
  (s.get_due_reminders now).foldl
    (fun acc r =>
      (acc.1 ++ [.notifyFire r.id (deliver r.id), .markFired r.id],
       acc.2.mark_fired r.id))
    ([], s)

/-- Recognise the notification event for a given reminder id. -/
def isNotifyFor (i : Nat) : SchedEvent → Bool
  | .notifyFire j _ => j = i
  | _ => false

/-- Recognise the mark-fired event for a given reminder id. -/
def isMarkFor (i : Nat) : SchedEvent → Bool
  | .markFired j => j = i
  | _ => false

/-! ## Message splitting (notifier.py 80-107)

`_split_message(text, limit)` — Python slices and `str.rfind(sub, 0,
limit)` are modelled on `List Char`; `rfind` returning `-1` becomes
`none`.  The `while remaining:` loop is modelled with explicit fuel:
`none` means the fuel ran out, i.e. the loop had not finished after that
many iterations. -/

/-- Highest index of `c` in the list, if any. -/
def rfindChar (c : Char) : List Char → Option Nat
  | [] => none
  | x :: xs =>
    match rfindChar c xs with
    | some i => some (i + 1)
    | none => if x = c then some 0 else none

/-- Python `remaining.rfind(c, 0, stop)`. -/
def pyRfind (cs : List Char) (c : Char) (stop : Nat) : Option Nat :=
  rfindChar c (cs.take stop)

/-- The break index of one loop iteration (notifier.py 96-103): last
newline within the limit, else last space, else the hard cut at
`limit`. -/
def splitIdx (limit : Nat) (remaining : List Char) : Nat :=
  match pyRfind remaining '\n' limit with
  | some i => i
  | none =>
    match pyRfind remaining ' ' limit with
    | some i => i
    | none => limit

/-- The `while remaining:` loop of `_split_message` (notifier.py
91-106), with fuel. -/
def splitLoop (limit : Nat) : Nat → List Char → Option (List (List Char))
  | 0, _ => none
  | fuel + 1, remaining =>
    if remaining.isEmpty then some []
    else if remaining.length ≤ limit then some [remaining]
    else
      let idx := splitIdx limit remaining
      match splitLoop limit fuel ((remaining.drop idx).dropWhile (· = '\n')) with
      | some rest => some (remaining.take idx :: rest)
      | none => none

/-- `_split_message` (notifier.py 80-107). -/
def split_message (text : List Char) (limit : Nat) (fuel : Nat) :
    Option (List (List Char)) :=
  if text.length ≤ limit then some [text] else splitLoop limit fuel text

/-! ## Derived forms and fixtures used by the theorems -/

/-- The event trace produced by one poll cycle, as a function of the
due list: per due reminder, a notification call followed by a
`mark_fired` call. -/
def cycleEvents (deliver : Nat → Bool) : List Reminder → List SchedEvent
  | [] => []
  | r :: rs => .notifyFire r.id (deliver r.id) :: .markFired r.id :: cycleEvents deliver rs

/-- The store after marking every reminder of a list fired, in order. -/
def markAll : List Reminder → ReminderStore → ReminderStore
  | [], s => s
  | r :: rs, s => markAll rs (s.mark_fired r.id)

/-- Every row with the given id is fired in this store. -/
def allFiredFor (i : Nat) (s : ReminderStore) : Prop :=
  ∀ r' ∈ s.reminders, r'.id = i → r'.fired = true

/-- The decimal digit characters. -/
def digitChar : Nat → Char
  | 0 => '0'
  | 1 => '1'
  | 2 => '2'
  | 3 => '3'
  | 4 => '4'
  | 5 => '5'
  | 6 => '6'
  | 7 => '7'
  | 8 => '8'
  | _ => '9'

/-- The canonical decimal numeral of a natural number (what appears in
a phrase `in Xh Ym Zs`). -/
def natDecimal (n : Nat) : List Char :=
  if n < 10 then [digitChar n]
  else natDecimal (n / 10) ++ [digitChar (n % 10)]
decreasing_by exact Nat.div_lt_self (by omega) (by omega)

/-- The first character (if any) falsifies the predicate. -/
def headFails (p : Char → Bool) : List Char → Prop
  | [] => True
  | c :: _ => p c = false

instance (p : Char → Bool) : (l : List Char) → Decidable (headFails p l)
  | [] => .isTrue trivial
  | c :: _ => inferInstanceAs (Decidable (p c = false))

/-- The hour-unit spellings of the compound-relative grammar
(`hours?|hrs?|h`). -/
def hourSpellings : List (List Char) :=
  [['h'], ['h','r'], ['h','r','s'], ['h','o','u','r'], ['h','o','u','r','s']]

/-- The minute-unit spellings (`minutes?|mins?|m`). -/
def minSpellings : List (List Char) :=
  [['m'], ['m','i','n'], ['m','i','n','s'],
   ['m','i','n','u','t','e'], ['m','i','n','u','t','e','s']]

/-- The second-unit spellings (`seconds?|secs?|s`). -/
def secSpellings : List (List Char) :=
  [['s'], ['s','e','c'], ['s','e','c','s'],
   ['s','e','c','o','n','d'], ['s','e','c','o','n','d','s']]

/-- Concrete fixture reminders and stores. -/
def rem0 : Reminder :=
  { id := 0, message := "water the plants", trigger_at := 100, created_at := 1,
    fired := false, conversation_id := none }

def rem1 : Reminder :=
  { id := 1, message := "call mom", trigger_at := 200, created_at := 2,
    fired := true, conversation_id := some "c1" }

def store2 : ReminderStore := { reminders := [rem0, rem1], nextId := 2 }

def store0 : ReminderStore := { reminders := [rem0], nextId := 1 }

/-! # Theorems -/

/-- **C2.** `get_due_reminders` returns exactly the stored reminders
with `trigger_at ≤ now` and `fired = false`: both soundness (every
returned reminder is stored, due, and unfired) and completeness (every
stored due unfired reminder is returned), for every store state. -/
theorem get_due_exactly_due_unfired (s : ReminderStore) (now : Nat) (r : Reminder) :
    r ∈ s.get_due_reminders now ↔
      r ∈ s.reminders ∧ r.trigger_at ≤ now ∧ r.fired = false := by
  simp [ReminderStore.get_due_reminders, List.mem_filter, and_assoc]

/-- **C4 (code evaluated at the failing input).** On the time
expression `"13 pm"` — which the bare-clock-time family matches
syntactically, pm turning hour 13 into 25, an invalid calendar time —
`parse_time_expression` does not return `ParseFailure` (`None`): the
`datetime.replace` call raises `ValueError`, which propagates to the
caller, for every value of `now`. -/
theorem parse_invalid_hour_raises (now : Nat) :
    parse_time_expression "13 pm" now = .valueError := rfl

/-- **C7.** On `"Sure! [REMIND: in 10m | call mom] Anything else?"`,
`strip_reminder_tags` removes the tag and preserves the surrounding
text, and `extract_reminder_tags` returns exactly one tuple pairing time
expression `"in 10m"` with message `"call mom"`. -/
theorem tag_extraction_example :
    strip_reminder_tags "Sure! [REMIND: in 10m | call mom] Anything else?" =
        "Sure!  Anything else?" ∧
      extract_reminder_tags "Sure! [REMIND: in 10m | call mom] Anything else?" =
        [("[REMIND: in 10m | call mom]", "in 10m", "call mom")] :=
  ⟨rfl, rfl⟩

/-- **C9 (code evaluated at the failing input).** `_split_message` does
not terminate on every input: on `text = " xx"` with `limit = 1` the
break index is the space at index 0, the appended chunk is empty, and
`remaining` is left unchanged by `remaining[0:].lstrip("\n")`, so the
`while` loop never finishes — no amount of fuel makes the model return
a result. -/
theorem split_message_diverges (fuel : Nat) :
    split_message [' ', 'x', 'x'] 1 fuel = none := by
  have key : ∀ f, splitLoop 1 f [' ', 'x', 'x'] = none := by
    intro f
    induction f with
    | zero => rfl
    | succ n ih =>
      have step : splitLoop 1 (n + 1) [' ', 'x', 'x'] =
          match splitLoop 1 n [' ', 'x', 'x'] with
          | some rest => some ([] :: rest)
          | none => none := rfl
      rw [step, ih]
  simpa [split_message] using key fuel

/-- Members of a list mapped to distinct ids are determined by their id. -/
theorem id_unique {l : List Reminder} (hnd : (l.map Reminder.id).Nodup)
    {a b : Reminder} (ha : a ∈ l) (hb : b ∈ l) (hid : a.id = b.id) : a = b :=
  List.inj_on_of_nodup_map hnd ha hb hid

theorem reminderConsistent_refl (r : Reminder) : reminderConsistent r r :=
  ⟨rfl, rfl, rfl, rfl, fun h => h⟩

/-- **C8 counterexample.** The claim gives `list_all` a caller-chosen
`limit` parameter; the source `list_all(self)` takes none and always
uses the constant `LIMIT 50`.  Called on a store holding two reminders,
it returns both — there is no way to request "the most recent 1". -/
theorem list_all_limit_cex :
    (store2.list_all).length = 2 ∧ ¬(store2.list_all).length ≤ 1 := by
  constructor <;> decide

/-- **C8 amended.** `list_all` takes no limit argument: it returns the
most recent at-most-50 reminders ordered by `trigger_at` descending,
regardless of fired state.  Precisely: the result is sorted descending,
has length `min 50 (store size)`, is drawn from the store, contains
every stored reminder (fired or not) whenever the store holds at most
50, and — pinning "most recent" when the limit bites — the rows it
omits are exactly the rest of the store (as a multiset, so no
fired-state filtering either) and every omitted row's `trigger_at` is
at most every returned row's. -/
theorem list_all_most_recent_desc (s : ReminderStore) :
    List.Sorted remGE s.list_all ∧
      s.list_all.length = min 50 s.reminders.length ∧
      (∀ r ∈ s.list_all, r ∈ s.reminders) ∧
      (s.reminders.length ≤ 50 → ∀ r ∈ s.reminders, r ∈ s.list_all) ∧
      ∃ omitted : List Reminder,
        List.Perm (s.list_all ++ omitted) s.reminders ∧
        ∀ r ∈ omitted, ∀ r' ∈ s.list_all, r.trigger_at ≤ r'.trigger_at := by
  have hsorted : List.Sorted remGE (List.insertionSort remGE s.reminders) :=
    List.sorted_insertionSort remGE s.reminders
  refine ⟨?_, ?_, ?_, ?_, ?_⟩
  · exact hsorted.sublist (List.take_sublist 50 _)
  · simp [ReminderStore.list_all, List.length_take, List.length_insertionSort]
  · intro r hr
    exact (List.mem_insertionSort remGE).mp ((List.take_sublist 50 _).mem hr)
  · intro hlen r hr
    have h50 : (List.insertionSort remGE s.reminders).length ≤ 50 := by
      simpa [List.length_insertionSort] using hlen
    rw [ReminderStore.list_all, List.take_of_length_le h50]
    exact (List.mem_insertionSort remGE).mpr hr
  · refine ⟨(List.insertionSort remGE s.reminders).drop 50, ?_, ?_⟩
    · rw [ReminderStore.list_all, List.take_append_drop]
      exact List.perm_insertionSort remGE s.reminders
    · intro r hr r' hr'
      exact hsorted.rel_of_mem_take_of_mem_drop hr' hr

/-- Witness for C8: on the two-element store, `list_all` is within the
50-row budget and contains the fired reminder `rem1` as well. -/
theorem list_all_most_recent_desc_witness :
    store2.reminders.length ≤ 50 ∧ rem1 ∈ store2.list_all :=
  ⟨by decide,
    (list_all_most_recent_desc store2).2.2.2.1 (by decide) rem1 (by decide)⟩

/-- **C3.** Every store operation — `add`, `mark_fired`, `delete`, and
the read-only `get_due`, `list_active`, `list_all` — preserves the row
invariants: a reminder's `id`, `message`, `trigger_at`, `created_at`
and `conversation_id` are never modified after creation, and `fired`
only ever moves from `false` to `true` (never reset).  Well-formedness
of the store is preserved as well. -/
theorem store_ops_preserve_invariants (s : ReminderStore) (op : StoreOp)
    (hwf : s.WF) : storeEvolves s (applyOp s op) ∧ (applyOp s op).WF := by
  obtain ⟨hlt, hnd⟩ := hwf
  cases op with
  | add message trigger_at now conversation_id =>
    constructor
    · intro r hr r' hr' hid
      simp only [applyOp, ReminderStore.add_reminder, List.mem_append,
        List.mem_singleton] at hr'
      rcases hr' with hr' | hr'
      · rw [id_unique hnd hr hr' hid]; exact reminderConsistent_refl r'
      · exact absurd hid (by subst hr'; exact Nat.ne_of_lt (hlt r hr))
    · constructor
      · intro r hr
        simp only [applyOp, ReminderStore.add_reminder, List.mem_append,
          List.mem_singleton] at hr
        rcases hr with hr | hr
        · exact Nat.lt_succ_of_lt (hlt r hr)
        · subst hr; exact Nat.lt_succ_self _
      · simp only [applyOp, ReminderStore.add_reminder, List.map_append,
          List.map_cons, List.map_nil]
        refine List.Nodup.append hnd (List.nodup_singleton _) ?_
        intro i hi hi'
        simp only [List.mem_singleton] at hi'
        obtain ⟨r, hr, rfl⟩ := List.mem_map.mp hi
        exact Nat.ne_of_lt (hlt r hr) hi'
  | markFired reminder_id =>
    have hid : ∀ r : Reminder,
        (if r.id = reminder_id then { r with fired := true } else r).id = r.id := by
      intro r; split <;> rfl
    constructor
    · intro r hr r' hr' hide
      simp only [applyOp, ReminderStore.mark_fired, List.mem_map] at hr'
      obtain ⟨x, hx, rfl⟩ := hr'
      have hxr : x = r := id_unique hnd hx hr ((hide.trans (hid x)).symm)
      subst hxr
      split
      · exact ⟨rfl, rfl, rfl, rfl, fun _ => rfl⟩
      · exact reminderConsistent_refl x
    · constructor
      · intro r hr
        simp only [applyOp, ReminderStore.mark_fired, List.mem_map] at hr
        obtain ⟨x, hx, rfl⟩ := hr
        rw [hid x]; exact hlt x hx
      · have : ((s.mark_fired reminder_id).reminders.map Reminder.id) =
            s.reminders.map Reminder.id := by
          simp only [ReminderStore.mark_fired, List.map_map]
          exact List.map_congr_left fun r _ => hid r
        simpa only [applyOp, this] using hnd
  | delete reminder_id =>
    constructor
    · intro r hr r' hr' hide
      simp only [applyOp, ReminderStore.delete_reminder, List.mem_filter] at hr'
      rw [id_unique hnd hr hr'.1 hide]; exact reminderConsistent_refl r'
    · constructor
      · intro r hr
        simp only [applyOp, ReminderStore.delete_reminder, List.mem_filter] at hr
        exact hlt r hr.1
      · exact hnd.sublist ((List.filter_sublist _).map Reminder.id)
  | getDue now =>
    exact ⟨fun r hr r' hr' hide => by
      rw [id_unique hnd hr hr' hide]; exact reminderConsistent_refl r', hlt, hnd⟩
  | listActive =>
    exact ⟨fun r hr r' hr' hide => by
      rw [id_unique hnd hr hr' hide]; exact reminderConsistent_refl r', hlt, hnd⟩
  | listAll =>
    exact ⟨fun r hr r' hr' hide => by
      rw [id_unique hnd hr hr' hide]; exact reminderConsistent_refl r', hlt, hnd⟩

/-- Witness for C3: the concrete two-reminder store is well-formed and
marking id 0 fired evolves it consistently. -/
theorem store_ops_preserve_invariants_witness :
    store2.WF ∧ storeEvolves store2 (applyOp store2 (.markFired 0)) ∧
      (applyOp store2 (.markFired 0)).WF := by
  have hwf : store2.WF := by
    constructor
    · decide
    · decide
  exact ⟨hwf, (store_ops_preserve_invariants store2 (.markFired 0) hwf).1,
    (store_ops_preserve_invariants store2 (.markFired 0) hwf).2⟩

/-! ## Scheduler poll-cycle lemmas (C1) -/

theorem pollCycle_foldl (deliver : Nat → Bool) (l : List Reminder)
    (acc : List SchedEvent) (st : ReminderStore) :
    l.foldl (fun acc r =>
        (acc.1 ++ [.notifyFire r.id (deliver r.id), .markFired r.id],
         acc.2.mark_fired r.id)) (acc, st) =
      (acc ++ cycleEvents deliver l, markAll l st) := by
  induction l generalizing acc st with
  | nil => simp [cycleEvents, markAll]
  | cons r rs ih => simp [cycleEvents, markAll, ih]

/-- One poll cycle, split into its trace and its store effect. -/
theorem pollCycle_eq (s : ReminderStore) (now : Nat) (deliver : Nat → Bool) :
    s.pollCycle now deliver =
      (cycleEvents deliver (s.get_due_reminders now),
       markAll (s.get_due_reminders now) s) := by
  simpa [ReminderStore.pollCycle] using
    pollCycle_foldl deliver (s.get_due_reminders now) [] s

theorem countP_cycleEvents_notify (deliver : Nat → Bool) (i : Nat) :
    ∀ l : List Reminder,
      (cycleEvents deliver l).countP (isNotifyFor i) = (l.map Reminder.id).count i
  | [] => rfl
  | r :: rs => by
    by_cases h : r.id = i <;>
      simp [cycleEvents, List.countP_cons, List.count_cons, isNotifyFor, isMarkFor, h,
        countP_cycleEvents_notify deliver i rs]

theorem countP_cycleEvents_mark (deliver : Nat → Bool) (i : Nat) :
    ∀ l : List Reminder,
      (cycleEvents deliver l).countP (isMarkFor i) = (l.map Reminder.id).count i
  | [] => rfl
  | r :: rs => by
    by_cases h : r.id = i <;>
      simp [cycleEvents, List.countP_cons, List.count_cons, isNotifyFor, isMarkFor, h,
        countP_cycleEvents_mark deliver i rs]

/-- In the cycle trace, each due reminder's notification event is
immediately followed by its mark-fired event. -/
theorem cycleEvents_adjacent (deliver : Nat → Bool) {l : List Reminder}
    {r : Reminder} (hr : r ∈ l) :
    ∃ i, (cycleEvents deliver l)[i]? = some (.notifyFire r.id (deliver r.id)) ∧
      (cycleEvents deliver l)[i + 1]? = some (.markFired r.id) := by
  induction l with
  | nil => cases hr
  | cons x xs ih =>
    rcases List.mem_cons.mp hr with h | h
    · subst h; exact ⟨0, by simp [cycleEvents], by simp [cycleEvents]⟩
    · obtain ⟨i, h1, h2⟩ := ih h
      exact ⟨i + 2, by simpa [cycleEvents] using h1, by simpa [cycleEvents] using h2⟩

theorem mark_fired_sets (s : ReminderStore) (i : Nat) :
    allFiredFor i (s.mark_fired i) := by
  intro r' hr' hid
  simp only [ReminderStore.mark_fired, List.mem_map] at hr'
  obtain ⟨x, _, rfl⟩ := hr'
  by_cases h : x.id = i
  · simp [h]
  · simp only [h, if_false] at hid

theorem mark_fired_keeps (s : ReminderStore) (i j : Nat) (h : allFiredFor i s) :
    allFiredFor i (s.mark_fired j) := by
  intro r' hr' hid
  simp only [ReminderStore.mark_fired, List.mem_map] at hr'
  obtain ⟨x, hx, rfl⟩ := hr'
  by_cases hj : x.id = j
  · simp [hj]
  · simp only [hj, if_false] at hid ⊢; exact h x hx hid

theorem markAll_keeps (i : Nat) :
    ∀ (l : List Reminder) (s : ReminderStore), allFiredFor i s → allFiredFor i (markAll l s)
  | [], _, h => h
  | r :: rs, s, h => markAll_keeps i rs _ (mark_fired_keeps s i r.id h)

theorem markAll_sets {l : List Reminder} {r : Reminder} (hr : r ∈ l) :
    ∀ s : ReminderStore, allFiredFor r.id (markAll l s) := by
  induction l with
  | nil => cases hr
  | cons x xs ih =>
    intro s
    rcases List.mem_cons.mp hr with h | h
    · subst h
      exact markAll_keeps r.id xs _ (mark_fired_sets s r.id)
    · exact ih h _

/-- **C1.** In one scheduler poll cycle, for every reminder returned by
the due query: the fire notification is called exactly once and
`mark_fired` exactly once; the `mark_fired` call comes immediately after
the notification call; the resulting store does not depend on the
notification outcomes at all (so `mark_fired` happens even when `notify`
reports failure); and the reminder ends the cycle fired. -/
theorem scheduler_fires_each_due_once (s : ReminderStore) (now : Nat)
    (deliver : Nat → Bool) (r : Reminder) (hwf : s.WF)
    (hr : r ∈ s.get_due_reminders now) :
    (s.pollCycle now deliver).1.countP (isNotifyFor r.id) = 1 ∧
      (s.pollCycle now deliver).1.countP (isMarkFor r.id) = 1 ∧
      (∃ i, (s.pollCycle now deliver).1[i]? = some (.notifyFire r.id (deliver r.id)) ∧
        (s.pollCycle now deliver).1[i + 1]? = some (.markFired r.id)) ∧
      (∀ deliver', (s.pollCycle now deliver').2 = (s.pollCycle now deliver).2) ∧
      (∀ r' ∈ (s.pollCycle now deliver).2.reminders, r'.id = r.id → r'.fired = true) := by
  have hnodup : ((s.get_due_reminders now).map Reminder.id).Nodup :=
    hwf.2.sublist ((List.filter_sublist _).map Reminder.id)
  have hmem : r.id ∈ (s.get_due_reminders now).map Reminder.id :=
    List.mem_map.mpr ⟨r, hr, rfl⟩
  have hcount : ((s.get_due_reminders now).map Reminder.id).count r.id = 1 :=
    List.count_eq_one_of_mem hnodup hmem
  refine ⟨?_, ?_, ?_, ?_, ?_⟩
  · rw [pollCycle_eq, countP_cycleEvents_notify]; exact hcount
  · rw [pollCycle_eq, countP_cycleEvents_mark]; exact hcount
  · rw [pollCycle_eq]; exact cycleEvents_adjacent deliver hr
  · intro deliver'; rw [pollCycle_eq, pollCycle_eq]
  · rw [pollCycle_eq]; exact markAll_sets hr s

/-- Witness for C1: a store with one overdue reminder, polled with a
notification channel that always reports failure — the reminder is
still notified once, marked once, and ends up fired; the final store
equals the one obtained when delivery succeeds. -/
theorem scheduler_fires_each_due_once_witness :
    store0.WF ∧ rem0 ∈ store0.get_due_reminders 150 ∧
      (store0.pollCycle 150 fun _ => false).1.countP (isNotifyFor 0) = 1 ∧
      (store0.pollCycle 150 fun _ => false).1.countP (isMarkFor 0) = 1 ∧
      (store0.pollCycle 150 fun _ => false).1[0]? = some (.notifyFire 0 false) ∧
      (store0.pollCycle 150 fun _ => false).1[1]? = some (.markFired 0) ∧
      (store0.pollCycle 150 fun _ => true).2 = (store0.pollCycle 150 fun _ => false).2 ∧
      (∀ r' ∈ (store0.pollCycle 150 fun _ => false).2.reminders,
        r'.id = 0 → r'.fired = true) := by
  have hwf : store0.WF := ⟨by decide, by decide⟩
  have hr : rem0 ∈ store0.get_due_reminders 150 := by decide
  have main := scheduler_fires_each_due_once store0 150 (fun _ => false) rem0 hwf hr
  exact ⟨hwf, hr, main.1, main.2.1, by decide, by decide,
    main.2.2.2.1 fun _ => true, main.2.2.2.2⟩

/-- **C6.** For every bare clock-time phrase (one the first three
grammar families reject and the anchored bare-clock regex matches, with
a valid resulting hour and minute): when the computed time-of-day has
already passed `now1` on some day, the parse returns a timestamp exactly
86400 seconds greater than the parse of the same phrase at a `now2` of
the same day for which that time-of-day has not yet passed. -/
theorem bare_clock_rolls_forward_one_day (expr : String) (now1 now2 h mi : Nat)
    (ap : Option AmPm)
    (hc : compoundResult (normExpr expr) = none)
    (htom : dayClockMatch ['t','o','m','o','r','r','o','w'] (normExpr expr) = none)
    (htod : dayClockMatch ['t','o','d','a','y'] (normExpr expr) = none)
    (hb : clockCore true (normExpr expr) = some (h, mi, ap))
    (hh : adjustHour h ap ≤ 23) (hm : mi ≤ 59)
    (hday : now1 / 86400 = now2 / 86400)
    (hpassed : replaceTime now1 (adjustHour h ap) mi ≤ now1)
    (hfuture : now2 < replaceTime now2 (adjustHour h ap) mi) :
    parse_time_expression expr now1 =
        .ok (replaceTime now2 (adjustHour h ap) mi + 86400) ∧
      parse_time_expression expr now2 =
        .ok (replaceTime now2 (adjustHour h ap) mi) := by
  have hsame : replaceTime now1 (adjustHour h ap) mi =
      replaceTime now2 (adjustHour h ap) mi := by
    unfold replaceTime; rw [hday]
  constructor
  · simp only [parse_time_expression, hc, htom, htod, hb]
    rw [if_pos ⟨hh, hm⟩, if_pos hpassed, hsame]
  · simp only [parse_time_expression, hc, htom, htod, hb]
    rw [if_pos ⟨hh, hm⟩,
      if_neg (Nat.not_le.mpr hfuture)]

/-- Witness for C6: `"9:50 pm"` (21:50, i.e. second 78600 of the day)
parsed at second 80000 of day 0 (already passed) gives 78600 + 86400,
while parsed at second 1000 of day 0 (not yet passed) it gives 78600. -/
theorem bare_clock_rolls_forward_one_day_witness :
    parse_time_expression "9:50 pm" 80000 = .ok (78600 + 86400) ∧
      parse_time_expression "9:50 pm" 1000 = .ok 78600 :=
  bare_clock_rolls_forward_one_day "9:50 pm" 80000 1000 9 50 (some .pm)
    (by decide) (by decide) (by decide) (by decide) (by decide) (by decide)
    (by decide) (by decide) (by decide)

/-- **C10.** `parse_time_expression "in 5 months"` does not fail:
`"months"` is consumed as the minutes unit `m`, so the result is
`now + 300` seconds for every `now` — an input outside the specified
grammar that nevertheless parses. -/
theorem parse_months_as_minutes (now : Nat) :
    parse_time_expression "in 5 months" now = .ok (now + 300) := rfl

/-! ## Decimal numerals and character classes (C5) -/

theorem isDig_digitChar {d : Nat} (hd : d < 10) : isDig (digitChar d) = true := by
  interval_cases d <;> decide

theorem digitVal_digitChar {d : Nat} (hd : d < 10) : digitVal (digitChar d) = d := by
  interval_cases d <;> decide

theorem natDecimal_all_digits (n : Nat) : ∀ c ∈ natDecimal n, isDig c = true := by
  induction n using Nat.strong_induction_on with
  | _ n ih =>
    rw [natDecimal]
    split
    · intro c hc
      rw [List.mem_singleton] at hc
      subst hc
      exact isDig_digitChar (by omega)
    · intro c hc
      rcases List.mem_append.mp hc with h | h
      · exact ih (n / 10) (Nat.div_lt_self (by omega) (by omega)) c h
      · rw [List.mem_singleton] at h
        subst h
        exact isDig_digitChar (Nat.mod_lt n (by omega))

theorem natDecimal_ne_nil (n : Nat) : natDecimal n ≠ [] := by
  rw [natDecimal]
  split
  · simp
  · simp

/-- A numeral is a digit followed by more digits. -/
theorem natDecimal_cons (n : Nat) :
    ∃ d t, natDecimal n = d :: t ∧ isDig d = true := by
  obtain ⟨d, t, h⟩ := List.exists_cons_of_ne_nil (natDecimal_ne_nil n)
  exact ⟨d, t, h, natDecimal_all_digits n d (h ▸ List.mem_cons_self d t)⟩

theorem digitsVal_append (l : List Char) (c : Char) :
    digitsVal (l ++ [c]) = digitsVal l * 10 + digitVal c := by
  simp [digitsVal, List.foldl_append]

theorem digitsVal_natDecimal (n : Nat) : digitsVal (natDecimal n) = n := by
  induction n using Nat.strong_induction_on with
  | _ n ih =>
    rw [natDecimal]
    split
    · next h => simp [digitsVal, digitVal_digitChar h]
    · next h =>
      rw [digitsVal_append, ih (n / 10) (Nat.div_lt_self (by omega) (by omega)),
        digitVal_digitChar (Nat.mod_lt n (by omega))]
      omega

theorem isDig_bounds {c : Char} (h : isDig c = true) :
    48 ≤ c.toNat ∧ c.toNat ≤ 57 := by
  simpa [isDig, Bool.and_eq_true, decide_eq_true_eq] using h

theorem isDig_not_space {c : Char} (h : isDig c = true) : isPySpace c = false := by
  have hb := isDig_bounds h
  cases hsp : isPySpace c
  · rfl
  · exfalso
    simp only [isPySpace, Bool.or_eq_true, decide_eq_true_eq] at hsp
    rcases hsp with ((((e | e) | e) | e) | e) | e <;> (subst e; revert hb; decide)

theorem pyLowerChar_digit {c : Char} (h : isDig c = true) : pyLowerChar c = c := by
  have hb := isDig_bounds h
  rw [pyLowerChar, if_neg]
  simp only [Bool.and_eq_true, decide_eq_true_eq, not_and]
  omega

theorem isDig_ne_a {c : Char} (h : isDig c = true) : c ≠ 'a' := by
  intro e
  subst e
  exact absurd h (by decide)

theorem headFails_append {p : Char → Bool} {u : List Char} (v : List Char)
    (hne : u ≠ []) (h : headFails p u) : headFails p (u ++ v) := by
  cases u with
  | nil => exact absurd rfl hne
  | cons c cs => exact h

theorem dropWhile_of_headFails {p : Char → Bool} {l : List Char}
    (h : headFails p l) : l.dropWhile p = l := by
  cases l with
  | nil => rfl
  | cons c cs => simp [List.dropWhile_cons, headFails] at h ⊢; simp [h]

theorem takeWhile_append_all {p : Char → Bool} (l r : List Char)
    (hl : ∀ c ∈ l, p c = true) (hr : headFails p r) :
    (l ++ r).takeWhile p = l ∧ (l ++ r).dropWhile p = r := by
  induction l with
  | nil => exact ⟨by cases r with
      | nil => rfl
      | cons c cs => simpa [List.takeWhile_cons, headFails.eq_def] using hr,
      dropWhile_of_headFails hr⟩
  | cons c cs ih =>
    have hc : p c = true := hl c (List.mem_cons_self c cs)
    have := ih (fun x hx => hl x (List.mem_cons_of_mem c hx))
    simp [List.takeWhile_cons, List.dropWhile_cons, hc, this.1, this.2]

/-! ## Unit spellings (C5) -/

theorem hourSpelling_facts {hu : List Char} (h : hu ∈ hourSpellings) :
    hu ≠ [] ∧ headFails isDig hu ∧ headFails isPySpace hu ∧
      ∀ c ∈ hu, pyLowerChar c = c := by
  simp only [hourSpellings, List.mem_cons, List.not_mem_nil, or_false] at h
  rcases h with rfl | rfl | rfl | rfl | rfl <;>
    exact ⟨by decide, by decide, by decide, by decide⟩

theorem minSpelling_facts {mu : List Char} (h : mu ∈ minSpellings) :
    mu ≠ [] ∧ headFails isDig mu ∧ headFails isPySpace mu ∧
      ∀ c ∈ mu, pyLowerChar c = c := by
  simp only [minSpellings, List.mem_cons, List.not_mem_nil, or_false] at h
  rcases h with rfl | rfl | rfl | rfl | rfl <;>
    exact ⟨by decide, by decide, by decide, by decide⟩

theorem secSpelling_facts {su : List Char} (h : su ∈ secSpellings) :
    su ≠ [] ∧ headFails isDig su ∧ headFails isPySpace su ∧
      (∀ c ∈ su, pyLowerChar c = c) ∧ headFails isPySpace su.reverse := by
  simp only [secSpellings, List.mem_cons, List.not_mem_nil, or_false] at h
  rcases h with rfl | rfl | rfl | rfl | rfl <;>
    exact ⟨by decide, by decide, by decide, by decide, by decide⟩

theorem unitAlt_hourSpelling {hu : List Char} (h : hu ∈ hourSpellings)
    (rest : List Char) :
    unitAlt hourUnits (hu ++ ' ' :: rest) = some (' ' :: rest) := by
  simp only [hourSpellings, List.mem_cons, List.not_mem_nil, or_false] at h
  rcases h with rfl | rfl | rfl | rfl | rfl <;> rfl

theorem unitAlt_minSpelling {mu : List Char} (h : mu ∈ minSpellings)
    (rest : List Char) :
    unitAlt minUnits (mu ++ ' ' :: rest) = some (' ' :: rest) := by
  simp only [minSpellings, List.mem_cons, List.not_mem_nil, or_false] at h
  rcases h with rfl | rfl | rfl | rfl | rfl <;> rfl

theorem unitAlt_secSpelling {su : List Char} (h : su ∈ secSpellings) :
    unitAlt secUnits su = some [] := by
  simp only [secSpellings, List.mem_cons, List.not_mem_nil, or_false] at h
  rcases h with rfl | rfl | rfl | rfl | rfl <;> rfl

/-! ## Evaluating the optional unit groups on a well-formed phrase (C5) -/

theorem natDecimal_isEmpty (n : Nat) : (natDecimal n).isEmpty = false := by
  obtain ⟨d, t, h, _⟩ := natDecimal_cons n
  rw [h]
  rfl

/-- A (hour or minute) unit group `(?:(\d+)\s*UNIT\s*(?:and\s*)?)?` on
input `numeral ++ sep ++ unit ++ ' ' ++ digit-led rest` captures the
numeral's value and stops right before the digits of the next group. -/
theorem unitGroup_eval_tail (alts : List UnitAlt) (V : Nat) {sep u : List Char}
    {d : Char} (rest : List Char) (hsep : sep = [] ∨ sep = [' '])
    (hune : u ≠ []) (hud : headFails isDig u) (hus : headFails isPySpace u)
    (halt : unitAlt alts (u ++ ' ' :: d :: rest) = some (' ' :: d :: rest))
    (hd : isDig d = true) :
    unitGroup alts true (natDecimal V ++ (sep ++ (u ++ ' ' :: d :: rest))) =
      (some V, d :: rest) := by
  have hhead : headFails isDig (sep ++ (u ++ ' ' :: d :: rest)) := by
    rcases hsep with rfl | rfl
    · exact headFails_append (' ' :: d :: rest) hune hud
    · exact (by decide : isDig ' ' = false)
  obtain ⟨htw, hdw⟩ :=
    takeWhile_append_all (natDecimal V) (sep ++ (u ++ ' ' :: d :: rest))
      (natDecimal_all_digits V) hhead
  have hdropU : (u ++ ' ' :: d :: rest).dropWhile isPySpace =
      u ++ ' ' :: d :: rest :=
    dropWhile_of_headFails (headFails_append _ hune hus)
  have hcs1 : ((natDecimal V ++ (sep ++ (u ++ ' ' :: d :: rest))).dropWhile
      isDig).dropWhile isPySpace = u ++ ' ' :: d :: rest := by
    rw [hdw]
    rcases hsep with rfl | rfl
    · exact hdropU
    · exact hdropU
  have hcs3 : (' ' :: d :: rest).dropWhile isPySpace = d :: rest := by
    show (d :: rest).dropWhile isPySpace = d :: rest
    exact dropWhile_of_headFails (isDig_not_space hd)
  have hand : dropLit ['a','n','d'] (d :: rest) = none := by
    simp [dropLit, isDig_ne_a hd]
  rw [unitGroup, htw, natDecimal_isEmpty, hcs1, halt]
  simp only [Bool.false_eq_true, if_false, if_true, hcs3, hand,
    digitsVal_natDecimal]

/-- The final (seconds) unit group `(?:(\d+)\s*UNIT)?` on input
`numeral ++ sep ++ unit` (end of the phrase) captures the numeral's
value and consumes everything. -/
theorem unitGroup_eval_last (V : Nat) {sep su : List Char}
    (hsep : sep = [] ∨ sep = [' ']) (_hsune : su ≠ [])
    (hsud : headFails isDig su) (hsus : headFails isPySpace su)
    (halt : unitAlt secUnits su = some []) :
    unitGroup secUnits false (natDecimal V ++ (sep ++ su)) = (some V, []) := by
  have hhead : headFails isDig (sep ++ su) := by
    rcases hsep with rfl | rfl
    · exact hsud
    · exact (by decide : isDig ' ' = false)
  obtain ⟨htw, hdw⟩ :=
    takeWhile_append_all (natDecimal V) (sep ++ su)
      (natDecimal_all_digits V) hhead
  have hdropU : su.dropWhile isPySpace = su := dropWhile_of_headFails hsus
  have hcs1 : ((natDecimal V ++ (sep ++ su)).dropWhile isDig).dropWhile
      isPySpace = su := by
    rw [hdw]
    rcases hsep with rfl | rfl
    · exact hdropU
    · exact hdropU
  rw [unitGroup, htw, natDecimal_isEmpty, hcs1, halt]
  simp only [Bool.false_eq_true, if_false, digitsVal_natDecimal]

/-! ## Normalisation is the identity on a well-formed phrase (C5) -/

theorem pyLower_fixed : ∀ {l : List Char},
    (∀ c ∈ l, pyLowerChar c = c) → pyLower l = l
  | [], _ => rfl
  | c :: cs, h => by
    have hc := h c (List.mem_cons_self c cs)
    have hcs := pyLower_fixed fun x hx => h x (List.mem_cons_of_mem c hx)
    simp only [pyLower, List.map_cons] at hcs ⊢
    rw [hc, hcs]

theorem pyStrip_fixed {l : List Char} (h1 : headFails isPySpace l)
    (h2 : headFails isPySpace l.reverse) : pyStrip l = l := by
  unfold pyStrip
  rw [dropWhile_of_headFails h1, dropWhile_of_headFails h2, List.reverse_reverse]

theorem lowerFixed_append {l r : List Char}
    (hl : ∀ c ∈ l, pyLowerChar c = c) (hr : ∀ c ∈ r, pyLowerChar c = c) :
    ∀ c ∈ l ++ r, pyLowerChar c = c := by
  intro c hc
  rcases List.mem_append.mp hc with h | h
  · exact hl c h
  · exact hr c h

theorem lowerFixed_natDecimal (n : Nat) :
    ∀ c ∈ natDecimal n, pyLowerChar c = c :=
  fun c hc => pyLowerChar_digit (natDecimal_all_digits n c hc)

theorem lowerFixed_sep {sep : List Char} (hsep : sep = [] ∨ sep = [' ']) :
    ∀ c ∈ sep, pyLowerChar c = c := by
  rcases hsep with rfl | rfl
  · intro c hc; cases hc
  · decide

/-- Growing a list on the left keeps it non-empty and keeps its last
character (the head of its reversal) failing the predicate. -/
theorem lastFails {p : Char → Bool} (A : List Char) {B : List Char}
    (hB : B ≠ []) (h : headFails p B.reverse) :
    A ++ B ≠ [] ∧ headFails p (A ++ B).reverse := by
  refine ⟨List.append_ne_nil_of_right_ne_nil A hB, ?_⟩
  rw [List.reverse_append]
  exact headFails_append _ (fun e => hB (List.reverse_eq_nil_iff.mp e)) h

/-! ## The compound-relative family on a well-formed phrase (C5) -/

/-- `in ` followed by any body: the literal and the `\s+` consume the
prefix, and the three optional groups run on the body (with its own
leading whitespace consumed). -/
theorem matchCompound_in_space (B : List Char) :
    matchCompound ('i' :: 'n' :: ' ' :: B) =
      some ((unitGroup hourUnits true (B.dropWhile isPySpace)).1,
        (unitGroup minUnits true
          (unitGroup hourUnits true (B.dropWhile isPySpace)).2).1,
        (unitGroup secUnits false
          (unitGroup minUnits true
            (unitGroup hourUnits true (B.dropWhile isPySpace)).2).2).1) := rfl

theorem matchCompound_phrase (X Y Z : Nat) {sepH sepM sepS hu mu su : List Char}
    (hsepH : sepH = [] ∨ sepH = [' ']) (hsepM : sepM = [] ∨ sepM = [' '])
    (hsepS : sepS = [] ∨ sepS = [' '])
    (hhu : hu ∈ hourSpellings) (hmu : mu ∈ minSpellings) (hsu : su ∈ secSpellings) :
    matchCompound ('i' :: 'n' :: ' ' ::
        (natDecimal X ++ (sepH ++ (hu ++ ' ' ::
          (natDecimal Y ++ (sepM ++ (mu ++ ' ' ::
            (natDecimal Z ++ (sepS ++ su))))))))) =
      some (some X, some Y, some Z) := by
  obtain ⟨huNe, huD, huS, _⟩ := hourSpelling_facts hhu
  obtain ⟨muNe, muD, muS, _⟩ := minSpelling_facts hmu
  obtain ⟨suNe, suD, suS, _, _⟩ := secSpelling_facts hsu
  obtain ⟨dY, tY, hYeq, hdY⟩ := natDecimal_cons Y
  obtain ⟨dZ, tZ, hZeq, hdZ⟩ := natDecimal_cons Z
  have hG3 : unitGroup secUnits false (natDecimal Z ++ (sepS ++ su)) =
      (some Z, []) :=
    unitGroup_eval_last Z hsepS suNe suD suS (unitAlt_secSpelling hsu)
  have hG2 : unitGroup minUnits true
      (natDecimal Y ++ (sepM ++ (mu ++ ' ' :: (natDecimal Z ++ (sepS ++ su))))) =
      (some Y, natDecimal Z ++ (sepS ++ su)) := by
    rw [hZeq, List.cons_append]
    exact unitGroup_eval_tail minUnits Y _ hsepM muNe muD muS
      (unitAlt_minSpelling hmu _) hdZ
  have hG1 : unitGroup hourUnits true
      (natDecimal X ++ (sepH ++ (hu ++ ' ' ::
        (natDecimal Y ++ (sepM ++ (mu ++ ' ' ::
          (natDecimal Z ++ (sepS ++ su)))))))) =
      (some X,
        natDecimal Y ++ (sepM ++ (mu ++ ' ' :: (natDecimal Z ++ (sepS ++ su))))) := by
    rw [hYeq, List.cons_append]
    exact unitGroup_eval_tail hourUnits X _ hsepH huNe huD huS
      (unitAlt_hourSpelling hhu _) hdY
  have hdropBody :
      (natDecimal X ++ (sepH ++ (hu ++ ' ' ::
        (natDecimal Y ++ (sepM ++ (mu ++ ' ' ::
          (natDecimal Z ++ (sepS ++ su)))))))).dropWhile isPySpace =
      natDecimal X ++ (sepH ++ (hu ++ ' ' ::
        (natDecimal Y ++ (sepM ++ (mu ++ ' ' ::
          (natDecimal Z ++ (sepS ++ su))))))) := by
    apply dropWhile_of_headFails
    obtain ⟨dX, tX, hXeq, hdX⟩ := natDecimal_cons X
    rw [hXeq, List.cons_append]
    exact isDig_not_space hdX
  rw [matchCompound_in_space, hdropBody]
  simp only [hG1, hG2, hG3]

/-- The value of the compound family on the phrase. -/
theorem compoundResult_phrase (X Y Z : Nat) (hpos : 0 < X + Y + Z)
    {sepH sepM sepS hu mu su : List Char}
    (hsepH : sepH = [] ∨ sepH = [' ']) (hsepM : sepM = [] ∨ sepM = [' '])
    (hsepS : sepS = [] ∨ sepS = [' '])
    (hhu : hu ∈ hourSpellings) (hmu : mu ∈ minSpellings) (hsu : su ∈ secSpellings) :
    compoundResult ('i' :: 'n' :: ' ' ::
        (natDecimal X ++ (sepH ++ (hu ++ ' ' ::
          (natDecimal Y ++ (sepM ++ (mu ++ ' ' ::
            (natDecimal Z ++ (sepS ++ su))))))))) =
      some (X * 3600 + Y * 60 + Z) := by
  rw [compoundResult, matchCompound_phrase X Y Z hsepH hsepM hsepS hhu hmu hsu]
  simp [hpos]

/-- **C5.** For every `X`, `Y`, `Z` not all zero and every unit
spelling of the compound-relative grammar (short or long, with units in
hour/minute/second order and an optional space before each unit), the
phrase `in Xh Ym Zs` parses to exactly `now + X*3600 + Y*60 + Z`
seconds. -/
theorem compound_relative_exact (X Y Z now : Nat) (hpos : 0 < X + Y + Z)
    {sepH sepM sepS hu mu su : List Char}
    (hsepH : sepH = [] ∨ sepH = [' ']) (hsepM : sepM = [] ∨ sepM = [' '])
    (hsepS : sepS = [] ∨ sepS = [' '])
    (hhu : hu ∈ hourSpellings) (hmu : mu ∈ minSpellings) (hsu : su ∈ secSpellings) :
    parse_time_expression (String.mk ('i' :: 'n' :: ' ' ::
        (natDecimal X ++ (sepH ++ (hu ++ ' ' ::
          (natDecimal Y ++ (sepM ++ (mu ++ ' ' ::
            (natDecimal Z ++ (sepS ++ su)))))))))) now =
      .ok (now + (X * 3600 + Y * 60 + Z)) := by
  obtain ⟨huNe, huD, huS, huL⟩ := hourSpelling_facts hhu
  obtain ⟨muNe, muD, muS, muL⟩ := minSpelling_facts hmu
  obtain ⟨suNe, suD, suS, suL, suR⟩ := secSpelling_facts hsu
  -- the phrase is its own normalisation: no surrounding whitespace, all
  -- characters already lower-case
  have hlast0 := lastFails sepS suNe suR
  have hlast1 := lastFails (natDecimal Z) hlast0.1 hlast0.2
  have hlast2 := lastFails [' '] hlast1.1 hlast1.2
  have hlast3 := lastFails mu hlast2.1 hlast2.2
  have hlast4 := lastFails sepM hlast3.1 hlast3.2
  have hlast5 := lastFails (natDecimal Y) hlast4.1 hlast4.2
  have hlast6 := lastFails [' '] hlast5.1 hlast5.2
  have hlast7 := lastFails hu hlast6.1 hlast6.2
  have hlast8 := lastFails sepH hlast7.1 hlast7.2
  have hlast9 := lastFails (natDecimal X) hlast8.1 hlast8.2
  have hlast10 := lastFails ['i', 'n', ' '] hlast9.1 hlast9.2
  have hstrip : pyStrip ('i' :: 'n' :: ' ' ::
      (natDecimal X ++ (sepH ++ (hu ++ ' ' ::
        (natDecimal Y ++ (sepM ++ (mu ++ ' ' ::
          (natDecimal Z ++ (sepS ++ su))))))))) =
      'i' :: 'n' :: ' ' ::
      (natDecimal X ++ (sepH ++ (hu ++ ' ' ::
        (natDecimal Y ++ (sepM ++ (mu ++ ' ' ::
          (natDecimal Z ++ (sepS ++ su))))))))  :=
    pyStrip_fixed (show isPySpace 'i' = false by decide) hlast10.2
  have hlower : pyLower ('i' :: 'n' :: ' ' ::
      (natDecimal X ++ (sepH ++ (hu ++ ' ' ::
        (natDecimal Y ++ (sepM ++ (mu ++ ' ' ::
          (natDecimal Z ++ (sepS ++ su))))))))) =
      'i' :: 'n' :: ' ' ::
      (natDecimal X ++ (sepH ++ (hu ++ ' ' ::
        (natDecimal Y ++ (sepM ++ (mu ++ ' ' ::
          (natDecimal Z ++ (sepS ++ su)))))))) := by
    apply pyLower_fixed
    intro c hc
    rcases List.mem_cons.mp hc with rfl | hc
    · decide
    rcases List.mem_cons.mp hc with rfl | hc
    · decide
    rcases List.mem_cons.mp hc with rfl | hc
    · decide
    refine lowerFixed_append (lowerFixed_natDecimal X)
      (lowerFixed_append (lowerFixed_sep hsepH)
        (lowerFixed_append huL ?_)) c hc
    intro x hx
    rcases List.mem_cons.mp hx with rfl | hx
    · decide
    refine lowerFixed_append (lowerFixed_natDecimal Y)
      (lowerFixed_append (lowerFixed_sep hsepM)
        (lowerFixed_append muL ?_)) x hx
    intro y hy
    rcases List.mem_cons.mp hy with rfl | hy
    · decide
    exact lowerFixed_append (lowerFixed_natDecimal Z)
      (lowerFixed_append (lowerFixed_sep hsepS) suL) y hy
  have hnorm : normExpr (String.mk ('i' :: 'n' :: ' ' ::
      (natDecimal X ++ (sepH ++ (hu ++ ' ' ::
        (natDecimal Y ++ (sepM ++ (mu ++ ' ' ::
          (natDecimal Z ++ (sepS ++ su)))))))))) =
      'i' :: 'n' :: ' ' ::
      (natDecimal X ++ (sepH ++ (hu ++ ' ' ::
        (natDecimal Y ++ (sepM ++ (mu ++ ' ' ::
          (natDecimal Z ++ (sepS ++ su)))))))) := by
    rw [normExpr]
    show pyLower (pyStrip _) = _
    rw [hstrip, hlower]
  rw [parse_time_expression]
  rw [hnorm, compoundResult_phrase X Y Z hpos hsepH hsepM hsepS hhu hmu hsu]

/-- Witness for C5: `"in 1h 0m 30s"` at `now = 100` parses to
`100 + 3630`. -/
theorem compound_relative_exact_witness :
    (0 : Nat) < 1 + 0 + 30 ∧
      parse_time_expression "in 1h 0m 30s" 100 =
        .ok (100 + (1 * 3600 + 0 * 60 + 30)) := by
  refine ⟨by decide, ?_⟩
  have h := @compound_relative_exact 1 0 30 100 (by decide)
    [] [] [] ['h'] ['m'] ['s']
    (Or.inl rfl) (Or.inl rfl) (Or.inl rfl)
    (by decide) (by decide) (by decide)
  have e1 : natDecimal 1 = ['1'] := by rw [natDecimal]; decide
  have e0 : natDecimal 0 = ['0'] := by rw [natDecimal]; decide
  have e30 : natDecimal 30 = ['3', '0'] := by
    rw [natDecimal, natDecimal]; decide
  rw [e1, e0, e30] at h
  exact h

end Thursday
